import Mathlib

/-!
Verification of the trading-client request/response pipeline
(`trading_client.go` of the invest-openapi-go-sdk repository).

The development shallowly embeds the client's pure logic:

* a JSON value type `Json`, a JSON text parser (`parseF` / `parseJsonStr`)
  mirroring `encoding/json`'s grammar, and a renderer (`Json.render`)
  mirroring `json.Marshal`'s output (compact, HTML-escaping, lowercase hex);
* the decoders that `json.Unmarshal` derives for the response structs
  declared in the source (`TradingError`, the per-endpoint envelopes);
* the request builder `newRequest`, the classifier `doRequest`
  and the endpoint functions, with the HTTP transport abstracted as an
  explicitly supplied `HttpResponse`.

Machine integers do not occur (status codes are small naturals in Go's int
range); Go `float64` request fields and JSON numbers are modelled as exact
decimals (`JNum`), whose rendering agrees with Go's shortest-round-trip
formatting on the terminating decimals the claims evaluate.
-/

/-- Exact decimal number: the value `mant * 10 ^ exp10`.  JSON number
literals denote exactly such values; Go's `float64` values the claims
evaluate (integers and terminating decimals such as `150.5`) are also of
this form, so the rounding `encoding/json` performs on overlong literals
is out of scope. -/
structure JNum where
  mant : Int
  exp10 : Int
  deriving DecidableEq

/-- JSON values, as `encoding/json` classifies them (object member order
and duplicates preserved, as the decoder sees them). -/
inductive Json where
  | null : Json
  | bool (b : Bool) : Json
  | num (n : JNum) : Json
  | str (s : String) : Json
  | arr (elems : List Json) : Json
  | obj (fields : List (String × Json)) : Json

/-- JSON whitespace, as in Go's `encoding/json` scanner. -/
def isJsonWs (c : Char) : Bool :=
  c = ' ' || c = '\t' || c = '\n' || c = '\r'

/-- Drop leading JSON whitespace. -/
def skipWs : List Char → List Char
  | [] => []
  | c :: r => if isJsonWs c then skipWs r else c :: r

/-- Value of a hex digit, if the character is one. -/
def hexVal (c : Char) : Option Nat :=
  if '0' ≤ c ∧ c ≤ '9' then some (c.toNat - 48)
  else if 'a' ≤ c ∧ c ≤ 'f' then some (c.toNat - 87)
  else if 'A' ≤ c ∧ c ≤ 'F' then some (c.toNat - 55)
  else none

/-- Character denoted by a `\uXXXX` escape.  Surrogate halves are replaced
by U+FFFD (Go combines well-formed surrogate pairs; the renderer below never
emits surrogate escapes, so only ill-formed input is affected). -/
def uescChar (n : Nat) : Char :=
  if 0xD800 ≤ n ∧ n < 0xE000 then Char.ofNat 0xFFFD else Char.ofNat n

/-- Body of a JSON string literal, after the opening quote: the decoded
characters and the input after the closing quote.  Mirrors Go's scanner:
the eight single-character escapes and `\uXXXX`; raw control characters
are rejected. -/
def parseStringBody : List Char → Option (List Char × List Char)
  | [] => none
  | c :: r =>
    if c = '"' then some ([], r)
    else if c = '\\' then
      match r with
      | [] => none
      | e :: r' =>
        if e = '"' then (parseStringBody r').map fun p => ('"' :: p.1, p.2)
        else if e = '\\' then (parseStringBody r').map fun p => ('\\' :: p.1, p.2)
        else if e = '/' then (parseStringBody r').map fun p => ('/' :: p.1, p.2)
        else if e = 'b' then (parseStringBody r').map fun p => ('\x08' :: p.1, p.2)
        else if e = 'f' then (parseStringBody r').map fun p => ('\x0c' :: p.1, p.2)
        else if e = 'n' then (parseStringBody r').map fun p => ('\n' :: p.1, p.2)
        else if e = 'r' then (parseStringBody r').map fun p => ('\r' :: p.1, p.2)
        else if e = 't' then (parseStringBody r').map fun p => ('\t' :: p.1, p.2)
        else if e = 'u' then
          match r' with
          | h1 :: h2 :: h3 :: h4 :: r'' =>
            match hexVal h1, hexVal h2, hexVal h3, hexVal h4 with
            | some a, some b, some c, some d =>
              (parseStringBody r'').map fun p =>
                (uescChar (a * 4096 + b * 256 + c * 16 + d) :: p.1, p.2)
            | _, _, _, _ => none
          | _ => none
        else none
    else if c.toNat < 0x20 then none
    else (parseStringBody r).map fun p => (c :: p.1, p.2)

/-- Longest prefix of decimal digits, and the rest. -/
def digitSpan : List Char → List Char × List Char
  | [] => ([], [])
  | c :: r =>
    if '0' ≤ c ∧ c ≤ '9' then
      let p := digitSpan r
      (c :: p.1, p.2)
    else ([], c :: r)

/-- Numeric value of a digit string. -/
def digitsToNat (ds : List Char) : Nat :=
  ds.foldl (fun acc c => acc * 10 + (c.toNat - 48)) 0

/-- Optional exponent part of a JSON number: with `mant` the digits read so
far and `fracLen` the number of fraction digits, reads `e`/`E`, an optional
sign and a nonempty digit run (or nothing), yielding the decimal value. -/
def parseNumTail (mant : Nat) (fracLen : Nat) (l : List Char) : Option (JNum × List Char) :=
  match l with
  | 'e' :: r => parseNumExp mant fracLen r
  | 'E' :: r => parseNumExp mant fracLen r
  | _ => some (⟨(mant : Int), -(fracLen : Int)⟩, l)
where
  /-- After `e`/`E`: optional sign, then a nonempty digit run. -/
  parseNumExp (mant fracLen : Nat) (l : List Char) : Option (JNum × List Char) :=
    let (neg, l') : Bool × List Char :=
      match l with
      | '+' :: r => (false, r)
      | '-' :: r => (true, r)
      | _ => (false, l)
    match digitSpan l' with
    | ([], _) => none
    | (ed, r) =>
      let e : Int := if neg then -(digitsToNat ed : Int) else (digitsToNat ed : Int)
      some (⟨(mant : Int), e - (fracLen : Int)⟩, r)

/-- JSON number grammar after an optional leading minus, as in RFC 8259 /
Go: integer part without redundant leading zero, optional nonempty
fraction, optional exponent. -/
def parseNumAfterSign (l : List Char) : Option (JNum × List Char) :=
  match digitSpan l with
  | ([], _) => none
  | (d0 :: ds, r1) =>
    if d0 = '0' ∧ ds ≠ [] then none
    else
      match r1 with
      | '.' :: r =>
        match digitSpan r with
        | ([], _) => none
        | (fd, r') =>
          parseNumTail (digitsToNat (d0 :: ds) * 10 ^ fd.length + digitsToNat fd) fd.length r'
      | _ => parseNumTail (digitsToNat (d0 :: ds)) 0 r1

/-- JSON number, with optional sign. -/
def parseNum (l : List Char) : Option (JNum × List Char) :=
  match l with
  | '-' :: r => (parseNumAfterSign r).map fun p => (⟨-p.1.mant, p.1.exp10⟩, p.2)
  | _ => parseNumAfterSign l

/-- Parsing mode of the single fuelled parser `parseF`: a value, the inside
of an array (just after `[`), the rest of an array after at least one
element, and likewise for objects. -/
inductive PMode where
  | val : PMode
  | elems : PMode
  | elemsRest (acc : List Json) : PMode
  | members : PMode
  | membersRest (acc : List (String × Json)) : PMode

/-- Whether a character list starts with the given character. -/
def headIs (l : List Char) (c : Char) : Bool :=
  match l with
  | x :: _ => x = c
  | [] => false

/-- A quoted object key followed by a colon and a value:
`"key" : value`, via the given value parser. -/
def parseMember (pv : List Char → Option (Json × List Char)) (l : List Char) :
    Option ((String × Json) × List Char) :=
  match parseStringBody l with
  | some (k, r') =>
    match skipWs r' with
    | ':' :: r'' =>
      match pv r'' with
      | some (v, r3) => some ((String.mk k, v), r3)
      | none => none
    | _ => none
  | none => none

/-- Fuelled JSON parser (one structurally recursive function so that
concrete runs reduce in the kernel).  The fuel bounds the number of
grammar steps, not the input length: string literals and numbers are
consumed by the structural helpers above. -/
def parseF : Nat → PMode → List Char → Option (Json × List Char)
  | 0, _, _ => none
  | f + 1, .val, l =>
    match skipWs l with
    | 'n' :: 'u' :: 'l' :: 'l' :: r => some (.null, r)
    | 't' :: 'r' :: 'u' :: 'e' :: r => some (.bool true, r)
    | 'f' :: 'a' :: 'l' :: 's' :: 'e' :: r => some (.bool false, r)
    | '"' :: r =>
      match parseStringBody r with
      | some (cs, r') => some (.str (String.mk cs), r')
      | none => none
    | '[' :: r => parseF f .elems r
    | '\x7b' :: r => parseF f .members r
    | l' =>
      match parseNum l' with
      | some (q, r) => some (.num q, r)
      | none => none
  | f + 1, .elems, l =>
    let l' := skipWs l
    if headIs l' ']' then some (.arr [], l'.tail)
    else
      match parseF f .val l' with
      | some (j, r) => parseF f (.elemsRest [j]) r
      | none => none
  | f + 1, .elemsRest acc, l =>
    let l' := skipWs l
    if headIs l' ']' then some (.arr acc.reverse, l'.tail)
    else if headIs l' ',' then
      match parseF f .val l'.tail with
      | some (j, r') => parseF f (.elemsRest (j :: acc)) r'
      | none => none
    else none
  | f + 1, .members, l =>
    let l' := skipWs l
    if headIs l' '\x7d' then some (.obj [], l'.tail)
    else if headIs l' '"' then
      match parseMember (parseF f .val) l'.tail with
      | some (kv, r3) => parseF f (.membersRest [kv]) r3
      | none => none
    else none
  | f + 1, .membersRest acc, l =>
    let l' := skipWs l
    if headIs l' '\x7d' then some (.obj acc.reverse, l'.tail)
    else if headIs l' ',' then
      let l'' := skipWs l'.tail
      if headIs l'' '"' then
        match parseMember (parseF f .val) l''.tail with
        | some (kv, r3) => parseF f (.membersRest (kv :: acc)) r3
        | none => none
      else none
    else none

/-- `json.Unmarshal`'s syntactic phase on a whole input: one JSON value,
possibly surrounded by whitespace; trailing non-whitespace is an error.
The fuel `2*(n+1)` dominates the number of grammar steps any input of
length `n` can make the parser take. -/
def parseJsonStr (s : String) : Option Json :=
  match parseF (2 * (s.data.length + 1)) .val s.data with
  | some (j, rest) => if skipWs rest = [] then some j else none
  | none => none

example : parseJsonStr "null" = some Json.null := by rfl
example : parseJsonStr " \x7b \x7d " = some (Json.obj []) := by rfl
example : parseJsonStr "\x7b\"a\":[1,true,\"x\"]\x7d"
    = some (Json.obj [("a", Json.arr [Json.num ⟨1, 0⟩, Json.bool true, Json.str "x"])]) := by rfl
example : parseJsonStr "-12.25e1" = some (Json.num ⟨-1225, -1⟩) := by rfl
example : parseJsonStr "\x7b" = none := by rfl
example : parseJsonStr "01" = none := by rfl
example : parseJsonStr "\"a\\u003cb\"" = some (Json.str "a<b") := by rfl

/-- Lowercase hex digit character, as Go's JSON encoder emits. -/
def hexDigChar (n : Nat) : Char :=
  if n < 10 then Char.ofNat (48 + n) else Char.ofNat (87 + n)

/-- A `\uXXXX` escape with lowercase hex digits. -/
def uescDigits (n : Nat) : List Char :=
  ['\\', 'u', hexDigChar (n / 4096 % 16), hexDigChar (n / 256 % 16),
   hexDigChar (n / 16 % 16), hexDigChar (n % 16)]

/-- How Go's JSON encoder (with the default HTML escaping) writes one
character of a string: `"`, `\`, newline, carriage return and tab get
two-character escapes; the HTML-sensitive `<`, `>`, `&`, the remaining
control characters and U+2028/U+2029 get `\u` escapes; everything else is
written as itself. -/
def escChar (c : Char) : List Char :=
  if c = '"' then ['\\', '"']
  else if c = '\\' then ['\\', '\\']
  else if c = '\n' then ['\\', 'n']
  else if c = '\r' then ['\\', 'r']
  else if c = '\t' then ['\\', 't']
  else if c = '<' ∨ c = '>' ∨ c = '&' ∨ c.toNat < 0x20 ∨ c.toNat = 0x2028 ∨ c.toNat = 0x2029 then
    uescDigits c.toNat
  else [c]

/-- Go encoding of a whole string body (without the surrounding quotes). -/
def escChars : List Char → List Char
  | [] => []
  | c :: r => escChar c ++ escChars r

/-- Decimal digits of a natural number (fuelled so that it reduces in the
kernel; the fuel `n + 1` always suffices since `n / 10 < n` for `n ≥ 10`). -/
def natDigitsAux : Nat → Nat → List Char
  | 0, _ => []
  | f + 1, n =>
    if n < 10 then [Char.ofNat (48 + n)]
    else natDigitsAux f (n / 10) ++ [Char.ofNat (48 + n % 10)]

/-- Decimal digits of a natural number. -/
def natDigits (n : Nat) : List Char := natDigitsAux (n + 1) n

/-- Strip factors of ten from a mantissa into the exponent. -/
def stripTens : Nat → Nat → Int → Nat × Int
  | 0, m, e => (m, e)
  | f + 1, m, e => if m ≠ 0 ∧ m % 10 = 0 then stripTens f (m / 10) (e + 1) else (m, e)

/-- Go's shortest decimal rendering of a number value (`strconv`'s `%g`
with precision -1, as `json.Marshal` uses for `float64`, which on integers
agrees with the rendering of Go's integer types): significant digits with
the decimal point placed by the exponent.  The switch to e-notation that
`%g` makes for extreme exponents is not modelled; every value the claims
evaluate renders in plain positional form. -/
def renderJNum (x : JNum) : List Char :=
  let m0 := x.mant.natAbs
  if m0 = 0 then ['0']
  else
    let sign : List Char := if x.mant < 0 then ['-'] else []
    let p := stripTens (m0 + 1) m0 x.exp10
    let m := p.1
    let e := p.2
    if 0 ≤ e then sign ++ natDigits m ++ List.replicate e.toNat '0'
    else
      let k := (-e).toNat
      let ds := natDigits m
      if k < ds.length then
        sign ++ ds.take (ds.length - k) ++ '.' :: ds.drop (ds.length - k)
      else sign ++ '0' :: '.' :: List.replicate (k - ds.length) '0' ++ ds

mutual

/-- Characters `json.Marshal` produces for a value (compact form: Go emits
no whitespace). -/
def renderV : Json → List Char
  | .null => "null".data
  | .bool true => "true".data
  | .bool false => "false".data
  | .num x => renderJNum x
  | .str s => '"' :: escChars s.data ++ ['"']
  | .arr xs => '[' :: renderElems xs ++ [']']
  | .obj fs => '\x7b' :: renderMembers fs ++ ['\x7d']

/-- Array elements, comma-separated. -/
def renderElems : List Json → List Char
  | [] => []
  | j :: js => renderV j ++ renderTailE js

/-- Array elements after the first, each preceded by a comma. -/
def renderTailE : List Json → List Char
  | [] => []
  | j :: js => ',' :: (renderV j ++ renderTailE js)

/-- Object members, comma-separated. -/
def renderMembers : List (String × Json) → List Char
  | [] => []
  | (k, v) :: fs => renderKV k v ++ renderTailM fs

/-- Object members after the first, each preceded by a comma. -/
def renderTailM : List (String × Json) → List Char
  | [] => []
  | (k, v) :: fs => ',' :: (renderKV k v ++ renderTailM fs)

/-- One object member: quoted key, colon, value. -/
def renderKV (k : String) (v : Json) : List Char :=
  '"' :: escChars k.data ++ '"' :: ':' :: renderV v

end

/-- The string `json.Marshal` produces for a value. -/
def Json.render (j : Json) : String := ⟨renderV j⟩

example : renderJNum ⟨1505, -1⟩ = ['1', '5', '0', '.', '5'] := by rfl
example : renderJNum ⟨10, 0⟩ = ['1', '0'] := by rfl
example : renderJNum ⟨-25, -3⟩ = ['-', '0', '.', '0', '2', '5'] := by rfl

/-- Payload of the broker error envelope (`TradingError.Payload` in the
source). -/
structure TEPayload where
  message : String
  code : String
  deriving DecidableEq

/-- The broker error envelope `TradingError` of the source:
`{"trackingId","status","payload":{"message","code"}}`. -/
structure TradingError where
  trackingID : String
  status : String
  payload : TEPayload
  deriving DecidableEq

/-- Zero value of `TradingError`, as Go initializes it before `Unmarshal`. -/
def zeroTradingError : TradingError := ⟨"", "", ⟨"", ""⟩⟩

/-- The `NotEnoughBalance` predicate of the source:
`t.Payload.Code == "NOT_ENOUGH_BALANCE"`. -/
def TradingError.NotEnoughBalance (t : TradingError) : Bool :=
  t.payload.code == "NOT_ENOUGH_BALANCE"

/-- `json.Unmarshal` into a Go `string` field holding `cur`: a JSON string
replaces it, `null` leaves it, any other shape is a type error. -/
def decodeStrField (cur : String) : Json → Option String
  | .null => some cur
  | .str s => some s
  | _ => none

/-- `json.Unmarshal` into the anonymous `Payload` struct of `TradingError`
holding `p`: `null` leaves it; an object folds its members in order
(unknown keys ignored, later duplicates win); any other shape errors. -/
def decodeTEPayloadInto (p : TEPayload) : Json → Option TEPayload
  | .null => some p
  | .obj fs =>
    fs.foldlM
      (fun acc kv =>
        if kv.1 = "message" then
          (decodeStrField acc.message kv.2).map fun s => { acc with message := s }
        else if kv.1 = "code" then
          (decodeStrField acc.code kv.2).map fun s => { acc with code := s }
        else some acc)
      p
  | _ => none

/-- `json.Unmarshal` into a `TradingError` holding `t`. -/
def decodeTradingErrorInto (t : TradingError) : Json → Option TradingError
  | .null => some t
  | .obj fs =>
    fs.foldlM
      (fun acc kv =>
        if kv.1 = "trackingId" then
          (decodeStrField acc.trackingID kv.2).map fun s => { acc with trackingID := s }
        else if kv.1 = "status" then
          (decodeStrField acc.status kv.2).map fun s => { acc with status := s }
        else if kv.1 = "payload" then
          (decodeTEPayloadInto acc.payload kv.2).map fun p => { acc with payload := p }
        else some acc)
      t
  | _ => none

/-- `json.Unmarshal(body, &tradingError)` of the classifier: parse, then
decode into the zero `TradingError`.  Key matching is modelled as exact;
Go additionally accepts case-insensitive matches, which no claim and no
body built from the documented envelope exercises. -/
def unmarshalTradingError (body : String) : Option TradingError :=
  (parseJsonStr body).bind (decodeTradingErrorInto zeroTradingError)

/-- Modelled from the spec: the `Instrument` payload type is declared
outside the given source file.  The spec names the FIGI (the instrument
key used across endpoints) and the ticker (the by-ticker search key) as
instrument attributes, so the type is modelled as a record of those two
strings. -/
structure Instrument where
  figi : String
  ticker : String
  deriving DecidableEq

/-- Zero value of `Instrument`. -/
def zeroInstrument : Instrument := ⟨"", ""⟩

/-- `json.Marshal`'s JSON value for an `Instrument` (struct fields in
declaration order). -/
def encodeInstrument (v : Instrument) : Json :=
  .obj [("figi", .str v.figi), ("ticker", .str v.ticker)]

/-- `json.Unmarshal` into an `Instrument` holding `i`. -/
def decodeInstrumentInto (i : Instrument) : Json → Option Instrument
  | .null => some i
  | .obj fs =>
    fs.foldlM
      (fun acc kv =>
        if kv.1 = "figi" then
          (decodeStrField acc.figi kv.2).map fun s => { acc with figi := s }
        else if kv.1 = "ticker" then
          (decodeStrField acc.ticker kv.2).map fun s => { acc with ticker := s }
        else some acc)
      i
  | _ => none

/-- `json.Unmarshal` of a JSON array into a `[]Instrument` holding `old`:
element `i` decodes into the existing element `i` when present (so that
duplicate object keys merge element-wise, as Go does), into a zero
`Instrument` otherwise; the result has the array's length. -/
def decodeInstrumentArr : List Instrument → List Json → Option (List Instrument)
  | _, [] => some []
  | old, x :: xs =>
    let cur := match old with | o :: _ => o | [] => zeroInstrument
    let rest := match old with | _ :: os => os | [] => []
    match decodeInstrumentInto cur x with
    | some v => (decodeInstrumentArr rest xs).map fun vs => v :: vs
    | none => none

/-- `json.Unmarshal` into a `[]Instrument` field holding `cur`. -/
def decodeInstrumentListInto (cur : List Instrument) : Json → Option (List Instrument)
  | .null => some cur
  | .arr xs => decodeInstrumentArr cur xs
  | _ => none

/-- Modelled from the spec: the `Order` payload type is declared outside
the given source file; the spec only documents that `GET /orders` yields a
list of orders and that orders are cancelled by id, so the type is
modelled as a record holding that id. -/
structure Order where
  orderID : String
  deriving DecidableEq

/-- Zero value of `Order`. -/
def zeroOrder : Order := ⟨""⟩

/-- `json.Unmarshal` into an `Order` holding `o`. -/
def decodeOrderInto (o : Order) : Json → Option Order
  | .null => some o
  | .obj fs =>
    fs.foldlM
      (fun acc kv =>
        if kv.1 = "orderId" then
          (decodeStrField acc.orderID kv.2).map fun s => { acc with orderID := s }
        else some acc)
      o
  | _ => none

/-- `json.Unmarshal` of a JSON array into a `[]Order` (as
`decodeInstrumentArr`). -/
def decodeOrderArr : List Order → List Json → Option (List Order)
  | _, [] => some []
  | old, x :: xs =>
    let cur := match old with | o :: _ => o | [] => zeroOrder
    let rest := match old with | _ :: os => os | [] => []
    match decodeOrderInto cur x with
    | some v => (decodeOrderArr rest xs).map fun vs => v :: vs
    | none => none

/-- `json.Unmarshal` into a `[]Order` field holding `cur`. -/
def decodeOrderListInto (cur : List Order) : Json → Option (List Order)
  | .null => some cur
  | .arr xs => decodeOrderArr cur xs
  | _ => none

/-- Modelled from the spec: the `PlacedLimitOrder` payload type is declared
outside the given source file; the spec documents only that the
limit-order endpoint yields the placed order, modelled by its id. -/
structure PlacedLimitOrder where
  orderID : String
  deriving DecidableEq

/-- Zero value of `PlacedLimitOrder`. -/
def zeroPlacedLimitOrder : PlacedLimitOrder := ⟨""⟩

/-- `json.Unmarshal` into a `PlacedLimitOrder` holding `o`. -/
def decodePlacedOrderInto (o : PlacedLimitOrder) : Json → Option PlacedLimitOrder
  | .null => some o
  | .obj fs =>
    fs.foldlM
      (fun acc kv =>
        if kv.1 = "orderId" then
          (decodeStrField acc.orderID kv.2).map fun s => { acc with orderID := s }
        else some acc)
      o
  | _ => none

/-- `json.Unmarshal` into `SearchInstrumentByFIGI`'s anonymous response
struct `\x7b Payload Instrument \x7d` (starting from its zero value), yielding the
`Payload` field the source returns. -/
def decodeFIGIResp : Json → Option Instrument
  | .null => some zeroInstrument
  | .obj fs =>
    fs.foldlM
      (fun acc kv => if kv.1 = "payload" then decodeInstrumentInto acc kv.2 else some acc)
      zeroInstrument
  | _ => none

/-- `json.Unmarshal` into the inner anonymous struct
`\x7b Instruments []Instrument \x7d` of `instruments`. -/
def decodeInstrumentsPayloadInto (cur : List Instrument) : Json → Option (List Instrument)
  | .null => some cur
  | .obj fs =>
    fs.foldlM
      (fun acc kv => if kv.1 = "instruments" then decodeInstrumentListInto acc kv.2 else some acc)
      cur
  | _ => none

/-- `json.Unmarshal` into `instruments`' anonymous response struct,
yielding the `Payload.Instruments` field the source returns. -/
def decodeInstrumentsResp : Json → Option (List Instrument)
  | .null => some []
  | .obj fs =>
    fs.foldlM
      (fun acc kv => if kv.1 = "payload" then decodeInstrumentsPayloadInto acc kv.2 else some acc)
      []
  | _ => none

/-- `json.Unmarshal` into `Orders`' anonymous response struct
`\x7b Payload []Order \x7d`, yielding the `Payload` field the source returns. -/
def decodeOrdersResp : Json → Option (List Order)
  | .null => some []
  | .obj fs =>
    fs.foldlM
      (fun acc kv => if kv.1 = "payload" then decodeOrderListInto acc kv.2 else some acc)
      []
  | _ => none

/-- `json.Unmarshal` into `LimitOrder`'s anonymous response struct
`\x7b Payload PlacedLimitOrder \x7d`. -/
def decodePlacedOrderResp : Json → Option PlacedLimitOrder
  | .null => some zeroPlacedLimitOrder
  | .obj fs =>
    fs.foldlM
      (fun acc kv => if kv.1 = "payload" then decodePlacedOrderInto acc kv.2 else some acc)
      zeroPlacedLimitOrder
  | _ => none

/-- The envelope decoder of `SearchInstrumentByFIGI` on the response body. -/
def unmarshalFIGIResponse (body : String) : Option Instrument :=
  (parseJsonStr body).bind decodeFIGIResp

/-- The envelope decoder of `instruments` on the response body. -/
def unmarshalInstrumentsResponse (body : String) : Option (List Instrument) :=
  (parseJsonStr body).bind decodeInstrumentsResp

/-- The envelope decoder of `Orders` on the response body. -/
def unmarshalOrdersResponse (body : String) : Option (List Order) :=
  (parseJsonStr body).bind decodeOrdersResp

/-- The envelope decoder of `LimitOrder` on the response body. -/
def unmarshalPlacedOrderResponse (body : String) : Option PlacedLimitOrder :=
  (parseJsonStr body).bind decodePlacedOrderResp

/-- Errors of the client, as the source distinguishes them: the
`ErrNotFound` sentinel, a decoded `TradingError` (which is an `error`
value in Go), and the string-message errors made by `errors.New`,
`errors.Errorf` and `errors.Wrapf`. -/
inductive GoErr where
  | notFound : GoErr
  | trading (e : TradingError) : GoErr
  | errorf (msg : String) : GoErr
  deriving DecidableEq

/-- The sentinel `var ErrNotFound = errors.New("Not found")`. -/
def ErrNotFound : GoErr := .notFound

/-- The client configuration (the `http.Client` with its fixed 5s timeout
is the transport, abstracted away: endpoint functions receive the
`HttpResponse` the transport produced). -/
structure TradingClient where
  token : String
  apiURL : String

/-- `const TradingApiURL` of the source. -/
def TradingApiURL : String := "https://api-invest.tinkoff.ru/openapi"

/-- `NewTradingClientCustom` of the source. -/
def NewTradingClientCustom (token apiURL : String) : TradingClient :=
  ⟨token, apiURL⟩

/-- `NewTradingClient` of the source. -/
def NewTradingClient (token : String) : TradingClient :=
  NewTradingClientCustom token TradingApiURL

/-- An outgoing HTTP request, as far as the source observes it: method,
URL, the parsed URL's `RawPath`, headers, body bytes. -/
structure HttpRequest where
  method : String
  url : String
  rawPath : String
  headers : List (String × String)
  body : Option String

/-- An HTTP response as the classifier sees it after the transport has
run and the whole body has been read: status code and body bytes. -/
structure HttpResponse where
  status : Nat
  body : String

/-- Modelled from the Go standard library (outside this repository):
`url.Parse`, hence `http.NewRequest`, fails exactly on ASCII control
characters in the URL; the finer grammar is out of scope and every URL
the client builds from control-free inputs is accepted. -/
def validRequestURL (u : String) : Bool :=
  u.data.all fun c => 0x20 ≤ c.toNat ∧ c.toNat ≠ 0x7f

/-- Modelled from the Go standard library (outside this repository):
`url.Parse` sets `URL.RawPath` (an "encoded path hint") only when the raw
path contains percent-escapes whose decoding does not re-encode to the
same text; for the percent-free URLs this client constructs it is the
empty string.  (The percent branch conservatively keeps the input; no URL
the source builds contains `%`.) -/
def urlRawPath (u : String) : String :=
  if u.data.contains '%' then u else ""

/-- `http.Header.Set`: replace any previous value of the key.  The keys
the source uses are already in canonical MIME form, so canonicalization
is the identity here. -/
def headerSet (hs : List (String × String)) (k v : String) : List (String × String) :=
  (k, v) :: hs.filter fun p => ¬p.1 = k

/-- `http.Header.Get`. -/
def headerGet (hs : List (String × String)) (k : String) : Option String :=
  (hs.find? fun p => p.1 = k).map fun p => p.2

/-- `newRequest` of the source: build the request (an error mentioning the
URL if the URL does not parse), then set `Content-Type` and
`Authorization`. -/
def newRequest (c : TradingClient) (method url : String) (body : Option String) :
    Except GoErr HttpRequest :=
  if validRequestURL url then
    .ok
      { method := method
        url := url
        rawPath := urlRawPath url
        headers :=
          headerSet (headerSet [] "Content-Type" "application/json")
            "Authorization" ("Bearer " ++ c.token)
        body := body }
  else .error (.errorf ("can\x27t create http request to " ++ url))

/-- Message of the generic classification error of `doRequest`
(`errors.Errorf("bad response to %s code=%d, body=%s", req.URL.RawPath,
resp.StatusCode, body)`). -/
def badRespMsg (rawPath : String) (status : Nat) (body : String) : String :=
  "bad response to " ++ rawPath ++ " code=" ++ Nat.repr status ++ ", body=" ++ body

/-- `doRequest` of the source, after the transport has produced a response
(the transport- and body-read-error branches wrap errors of the abstracted
transport and are out of scope): the status switch returning the Go pair
`([]byte, error)`.  200 hands the body to the caller; 404 is the sentinel;
otherwise the body is tried as a `TradingError` and failing that a generic
error carries `RawPath`, status and body. -/
def doRequest (req : HttpRequest) (resp : HttpResponse) : Option String × Option GoErr :=
  if resp.status = 200 then (some resp.body, none)
  else if resp.status = 404 then (none, some ErrNotFound)
  else
    match unmarshalTradingError resp.body with
    | some te => (none, some (.trading te))
    | none => (none, some (.errorf (badRespMsg req.rawPath resp.status resp.body)))

/-- Message of the decode-failure wrap of the endpoint functions
(`errors.Wrapf(err, "can't unmarshal response to %s, respBody=%s", path,
respBody)`); `errors.Wrapf` appends the cause's own text after this
prefix, which no claim inspects. -/
def unmarshalErrMsg (path body : String) : String :=
  "can\x27t unmarshal response to " ++ path ++ ", respBody=" ++ body

/-- The URL `SearchInstrumentByFIGI` builds. -/
def searchByFIGIPath (c : TradingClient) (figi : String) : String :=
  c.apiURL ++ "/market/search/by-figi?figi=" ++ figi

/-- `SearchInstrumentByFIGI` of the source, as a function of the response
the transport produced: build the request, classify, decode the
`\x7b"payload": Instrument\x7d` envelope; on any error return the zero
`Instrument` and the error, mirroring Go's `(Instrument, error)` pair. -/
def SearchInstrumentByFIGI (c : TradingClient) (figi : String) (resp : HttpResponse) :
    Instrument × Option GoErr :=
  let path := searchByFIGIPath c figi
  match newRequest c "GET" path none with
  | .error e => (zeroInstrument, some e)
  | .ok req =>
    match doRequest req resp with
    | (_, some e) => (zeroInstrument, some e)
    | (b, none) =>
      let body := b.getD ""
      match unmarshalFIGIResponse body with
      | some inst => (inst, none)
      | none => (zeroInstrument, some (.errorf (unmarshalErrMsg path body)))

/-- `instruments` of the source (the shared list-endpoint helper):
classify, then decode `\x7b"payload":\x7b"instruments":[...]\x7d\x7d`. -/
def instruments (c : TradingClient) (path : String) (resp : HttpResponse) :
    List Instrument × Option GoErr :=
  match newRequest c "GET" path none with
  | .error e => ([], some e)
  | .ok req =>
    match doRequest req resp with
    | (_, some e) => ([], some e)
    | (b, none) =>
      let body := b.getD ""
      match unmarshalInstrumentsResponse body with
      | some vs => (vs, none)
      | none => ([], some (.errorf (unmarshalErrMsg path body)))

/-- `SearchInstrumentByTicker` of the source. -/
def SearchInstrumentByTicker (c : TradingClient) (ticker : String) (resp : HttpResponse) :
    List Instrument × Option GoErr :=
  instruments c (c.apiURL ++ "/market/search/by-ticker?ticker=" ++ ticker) resp

/-- `Currencies` of the source. -/
def Currencies (c : TradingClient) (resp : HttpResponse) : List Instrument × Option GoErr :=
  instruments c (c.apiURL ++ "/market/currencies") resp

/-- `ETFs` of the source. -/
def ETFs (c : TradingClient) (resp : HttpResponse) : List Instrument × Option GoErr :=
  instruments c (c.apiURL ++ "/market/etfs") resp

/-- `Bonds` of the source. -/
def Bonds (c : TradingClient) (resp : HttpResponse) : List Instrument × Option GoErr :=
  instruments c (c.apiURL ++ "/market/bonds") resp

/-- `Stocks` of the source. -/
def Stocks (c : TradingClient) (resp : HttpResponse) : List Instrument × Option GoErr :=
  instruments c (c.apiURL ++ "/market/stocks") resp

/-- `Orders` of the source: classify, then decode `\x7b"payload":[...]\x7d`. -/
def Orders (c : TradingClient) (resp : HttpResponse) : List Order × Option GoErr :=
  let path := c.apiURL ++ "/orders"
  match newRequest c "GET" path none with
  | .error e => ([], some e)
  | .ok req =>
    match doRequest req resp with
    | (_, some e) => ([], some e)
    | (b, none) =>
      let body := b.getD ""
      match unmarshalOrdersResponse body with
      | some vs => (vs, none)
      | none => ([], some (.errorf (unmarshalErrMsg path body)))

/-- The request `postJSONThrow` builds: a nil body marshals to no bytes,
and `bytes.NewReader(bb)` always supplies a (possibly empty) body reader.
Marshalling a `Json` tree cannot fail, so the source's marshal-error
branch is dead at the call sites modelled (`OrderCancel` passes nil). -/
def postJSONThrowRequest (c : TradingClient) (url : String) (body : Option Json) :
    Except GoErr HttpRequest :=
  let bb : String := match body with | none => "" | some j => Json.render j
  newRequest c "POST" url (some bb)

/-- `postJSONThrow` of the source: build the request, classify, and return
only the error — a 200 body is read but discarded undecoded. -/
def postJSONThrow (c : TradingClient) (url : String) (body : Option Json)
    (resp : HttpResponse) : Option GoErr :=
  match postJSONThrowRequest c url body with
  | .error e => some e
  | .ok req => (doRequest req resp).2

/-- The URL `OrderCancel` builds. -/
def orderCancelPath (c : TradingClient) (id : String) : String :=
  c.apiURL ++ "/orders/cancel?orderId=" ++ id

/-- `OrderCancel` of the source. -/
def OrderCancel (c : TradingClient) (id : String) (resp : HttpResponse) : Option GoErr :=
  postJSONThrow c (orderCancelPath c id) none resp

/-- The URL `LimitOrder` builds. -/
def limitOrderPath (c : TradingClient) (figi : String) : String :=
  c.apiURL ++ "/orders/limit-order?figi=" ++ figi

/-- The JSON value `json.Marshal` produces for `LimitOrder`'s anonymous
payload struct: fields in declaration order with their tags
(`lots` — a Go `int`; `operation` — `OperationType`, a string type;
`price` — a `float64`, modelled as an exact decimal). -/
def limitOrderBodyJson (lots : Int) (operation : String) (price : JNum) : Json :=
  .obj [("lots", .num ⟨lots, 0⟩), ("operation", .str operation), ("price", .num price)]

/-- The request `LimitOrder` builds: the marshalled payload posted to the
by-figi URL (marshalling this struct cannot fail, so the source's
marshal-error branch is dead). -/
def limitOrderRequest (c : TradingClient) (figi : String) (lots : Int)
    (operation : String) (price : JNum) : Except GoErr HttpRequest :=
  newRequest c "POST" (limitOrderPath c figi)
    (some (Json.render (limitOrderBodyJson lots operation price)))

/-- `LimitOrder` of the source: build the request, classify, decode the
`\x7b"payload": PlacedLimitOrder\x7d` envelope. -/
def LimitOrder (c : TradingClient) (figi : String) (lots : Int) (operation : String)
    (price : JNum) (resp : HttpResponse) : PlacedLimitOrder × Option GoErr :=
  let path := limitOrderPath c figi
  match limitOrderRequest c figi lots operation price with
  | .error e => (zeroPlacedLimitOrder, some e)
  | .ok req =>
    match doRequest req resp with
    | (_, some e) => (zeroPlacedLimitOrder, some e)
    | (b, none) =>
      let body := b.getD ""
      match unmarshalPlacedOrderResponse body with
      | some po => (po, none)
      | none => (zeroPlacedLimitOrder, some (.errorf (unmarshalErrMsg path body)))

/-- Claim C1: for every response with HTTP status 404, `doRequest` returns
the `ErrNotFound` sentinel (and no body), whatever the body contains — the
body is never parsed. -/
theorem claim1_notFound_sentinel (req : HttpRequest) (body : String) :
    doRequest req ⟨404, body⟩ = (none, some ErrNotFound) := by
  rfl

/-- Claim C5: `doRequest` returns exactly one of a body or an error: the
body is present if and only if the error is absent. -/
theorem claim5_body_xor_error (req : HttpRequest) (resp : HttpResponse) :
    (doRequest req resp).1.isSome = true ↔ (doRequest req resp).2 = none := by
  unfold doRequest
  split
  · simp
  · split
    · simp
    · cases h : unmarshalTradingError resp.body <;> simp

/-- Claim C4: every request `newRequest` produces carries
`Authorization: Bearer <token>` and `Content-Type: application/json`,
whatever the method, URL and body. -/
theorem claim4_headers (c : TradingClient) (method url : String) (body : Option String)
    (req : HttpRequest) (h : newRequest c method url body = .ok req) :
    headerGet req.headers "Authorization" = some ("Bearer " ++ c.token) ∧
      headerGet req.headers "Content-Type" = some "application/json" := by
  unfold newRequest at h
  split at h
  · cases h
    simp [headerGet, headerSet]
  · cases h

/-- Witness for C4 at a concrete client and URL. -/
theorem claim4_headers_witness :
    headerGet
        (HttpRequest.mk "GET" "https://api-invest.tinkoff.ru/openapi/orders" ""
          (headerSet (headerSet [] "Content-Type" "application/json")
            "Authorization" "Bearer tok") none).headers
        "Authorization" = some ("Bearer " ++ "tok") ∧
      headerGet
        (HttpRequest.mk "GET" "https://api-invest.tinkoff.ru/openapi/orders" ""
          (headerSet (headerSet [] "Content-Type" "application/json")
            "Authorization" "Bearer tok") none).headers
        "Content-Type" = some "application/json" :=
  claim4_headers (NewTradingClient "tok") "GET"
    "https://api-invest.tinkoff.ru/openapi/orders" none _ (by rfl)

/-- Claim C8: `OrderCancel` with id "42" posts to
`{apiURL}/orders/cancel?orderId=42` with an empty body, and any 200
response — whatever its body — yields success without the body being
decoded or validated. -/
theorem claim8_orderCancel (c : TradingClient)
    (hv : validRequestURL (orderCancelPath c "42") = true) :
    (∃ req, postJSONThrowRequest c (orderCancelPath c "42") none = .ok req ∧
        req.method = "POST" ∧
        req.url = c.apiURL ++ "/orders/cancel?orderId=42" ∧
        req.body = some "") ∧
      ∀ body, OrderCancel c "42" ⟨200, body⟩ = none := by
  constructor
  · refine ⟨{ method := "POST"
              url := orderCancelPath c "42"
              rawPath := urlRawPath (orderCancelPath c "42")
              headers := headerSet (headerSet [] "Content-Type" "application/json")
                "Authorization" ("Bearer " ++ c.token)
              body := some "" }, ?_, rfl, ?_, rfl⟩
    · unfold postJSONThrowRequest newRequest
      simp [hv]
    · show c.apiURL ++ "/orders/cancel?orderId=" ++ "42" = _
      rw [String.append_assoc]
      rfl
  · intro body
    unfold OrderCancel postJSONThrow postJSONThrowRequest newRequest
    simp [hv, doRequest]

/-- Witness for C8 at a concrete client. -/
theorem claim8_orderCancel_witness :
    (∃ req,
        postJSONThrowRequest (NewTradingClient "tok")
            (orderCancelPath (NewTradingClient "tok") "42") none = .ok req ∧
          req.method = "POST" ∧
          req.url = (NewTradingClient "tok").apiURL ++ "/orders/cancel?orderId=42" ∧
          req.body = some "") ∧
      ∀ body, OrderCancel (NewTradingClient "tok") "42" ⟨200, body⟩ = none :=
  claim8_orderCancel (NewTradingClient "tok") (by rfl)

/-- Claim C3: a response whose status is neither 200 nor 404 and whose
body does not decode as the broker error envelope yields the generic
`errors.Errorf` error, whose message contains the decimal status code and
the raw body text. -/
theorem claim3_generic_error (req : HttpRequest) (status : Nat) (body : String)
    (h200 : status ≠ 200) (h404 : status ≠ 404)
    (hu : unmarshalTradingError body = none) :
    doRequest req ⟨status, body⟩ =
        (none, some (.errorf (badRespMsg req.rawPath status body))) ∧
      (Nat.repr status).data <:+: (badRespMsg req.rawPath status body).data ∧
      body.data <:+: (badRespMsg req.rawPath status body).data := by
  refine ⟨?_, ?_, ?_⟩
  · unfold doRequest
    simp [h200, h404, hu]
  · exact ⟨("bad response to " ++ req.rawPath ++ " code=").data, (", body=" ++ body).data,
      by simp [badRespMsg]⟩
  · exact ⟨("bad response to " ++ req.rawPath ++ " code=" ++ Nat.repr status ++ ", body=").data,
      [], by simp [badRespMsg]⟩

/-- Witness for C3: a 502 with an HTML body. -/
theorem claim3_generic_error_witness :
    doRequest (HttpRequest.mk "GET" "u" "" [] none) ⟨502, "<html>bad gateway</html>"⟩ =
        (none, some (.errorf (badRespMsg "" 502 "<html>bad gateway</html>"))) ∧
      (Nat.repr 502).data <:+: (badRespMsg "" 502 "<html>bad gateway</html>").data ∧
      "<html>bad gateway</html>".data <:+: (badRespMsg "" 502 "<html>bad gateway</html>").data :=
  claim3_generic_error (HttpRequest.mk "GET" "u" "" [] none) 502 "<html>bad gateway</html>"
    (by decide) (by decide) (by rfl)

/-- Claim C2: a response whose status is neither 200 nor 404 and whose
body is the broker error envelope yields a `TradingError` whose fields are
exactly the four JSON strings, and `NotEnoughBalance` holds on it iff the
code field is `"NOT_ENOUGH_BALANCE"`. -/
theorem claim2_tradingError_fields (req : HttpRequest) (status : Nat) (body : String)
    (tid st m cd : String) (h200 : status ≠ 200) (h404 : status ≠ 404)
    (hp : parseJsonStr body =
      some (.obj [("trackingId", .str tid), ("status", .str st),
        ("payload", .obj [("message", .str m), ("code", .str cd)])])) :
    doRequest req ⟨status, body⟩ =
        (none, some (.trading ⟨tid, st, ⟨m, cd⟩⟩)) ∧
      ((⟨tid, st, ⟨m, cd⟩⟩ : TradingError).NotEnoughBalance = true ↔
        cd = "NOT_ENOUGH_BALANCE") := by
  constructor
  · have hu : unmarshalTradingError body = some ⟨tid, st, ⟨m, cd⟩⟩ := by
      unfold unmarshalTradingError
      rw [hp]
      simp [decodeTradingErrorInto, decodeTEPayloadInto, decodeStrField, zeroTradingError]
    unfold doRequest
    simp [h200, h404, hu]
  · simp [TradingError.NotEnoughBalance]

/-- Witness for C2: a concrete 429 envelope. -/
theorem claim2_tradingError_fields_witness :
    doRequest (HttpRequest.mk "GET" "u" "" [] none)
        ⟨429,
          "\x7b\"trackingId\":\"t1\",\"status\":\"Error\",\"payload\":\x7b\"message\":\"m1\",\"code\":\"NOT_ENOUGH_BALANCE\"\x7d\x7d"⟩ =
        (none, some (.trading ⟨"t1", "Error", ⟨"m1", "NOT_ENOUGH_BALANCE"⟩⟩)) ∧
      ((⟨"t1", "Error", ⟨"m1", "NOT_ENOUGH_BALANCE"⟩⟩ : TradingError).NotEnoughBalance = true ↔
        "NOT_ENOUGH_BALANCE" = "NOT_ENOUGH_BALANCE") :=
  claim2_tradingError_fields (HttpRequest.mk "GET" "u" "" [] none) 429
    "\x7b\"trackingId\":\"t1\",\"status\":\"Error\",\"payload\":\x7b\"message\":\"m1\",\"code\":\"NOT_ENOUGH_BALANCE\"\x7d\x7d"
    "t1" "Error" "m1" "NOT_ENOUGH_BALANCE" (by decide) (by decide) (by rfl)

/-- Claim C7: `LimitOrder` with figi "BBG000B9XRY4", 10 lots, operation
"Buy" and price 150.5 posts to `{apiURL}/orders/limit-order?figi=BBG000B9XRY4`
with serialized body exactly `\x7b"lots":10,"operation":"Buy","price":150.5\x7d`. -/
theorem claim7_limitOrder_request (c : TradingClient)
    (hv : validRequestURL (limitOrderPath c "BBG000B9XRY4") = true) :
    ∃ req, limitOrderRequest c "BBG000B9XRY4" 10 "Buy" ⟨1505, -1⟩ = .ok req ∧
      req.method = "POST" ∧
      req.url = c.apiURL ++ "/orders/limit-order?figi=BBG000B9XRY4" ∧
      req.body = some "\x7b\"lots\":10,\"operation\":\"Buy\",\"price\":150.5\x7d" := by
  refine ⟨{ method := "POST"
            url := limitOrderPath c "BBG000B9XRY4"
            rawPath := urlRawPath (limitOrderPath c "BBG000B9XRY4")
            headers := headerSet (headerSet [] "Content-Type" "application/json")
              "Authorization" ("Bearer " ++ c.token)
            body := some (Json.render (limitOrderBodyJson 10 "Buy" ⟨1505, -1⟩)) },
    ?_, rfl, ?_, ?_⟩
  · unfold limitOrderRequest newRequest
    simp [hv]
  · show c.apiURL ++ "/orders/limit-order?figi=" ++ "BBG000B9XRY4" = _
    rw [String.append_assoc]
    rfl
  · show some (Json.render (limitOrderBodyJson 10 "Buy" ⟨1505, -1⟩)) = _
    simp [Json.render, limitOrderBodyJson, renderV, renderMembers, renderTailM, renderKV,
      escChars, escChar, renderJNum, uescDigits, hexDigChar, stripTens, natDigits, natDigitsAux]

/-- Witness for C7 at a concrete client. -/
theorem claim7_limitOrder_request_witness :
    ∃ req,
      limitOrderRequest (NewTradingClient "tok") "BBG000B9XRY4" 10 "Buy" ⟨1505, -1⟩ =
          .ok req ∧
        req.method = "POST" ∧
        req.url = (NewTradingClient "tok").apiURL ++ "/orders/limit-order?figi=BBG000B9XRY4" ∧
        req.body = some "\x7b\"lots\":10,\"operation\":\"Buy\",\"price\":150.5\x7d" :=
  claim7_limitOrder_request (NewTradingClient "tok") (by rfl)

/-- A fold whose step leaves the accumulator unchanged on every list
element returns the initial accumulator. -/
theorem foldlM_option_const {α β : Type} (g : β → α → Option β) (fs : List α) (init : β)
    (h : ∀ kv ∈ fs, g init kv = some init) : fs.foldlM g init = some init := by
  induction fs with
  | nil => rfl
  | cons kv fs ih =>
    have h0 : g init kv = some init := h kv (by simp)
    simp only [List.foldlM, h0, Option.bind_eq_bind, Option.some_bind]
    exact ih fun x hx => h x (by simp [hx])

set_option maxRecDepth 4096 in
/-- Claim C9 (evaluated at the failing input): the classifier's generic
error formats `req.URL.RawPath`, which is the empty string for the plain
URLs this client builds, so its message carries no URL: a 502 with body
"oops" on `GET \x7bapiURL\x7d/orders` produces the message
`bad response to  code=502, body=oops`, of which the request URL is not a
substring.  The decode-failure wrap, by contrast, does carry the URL and
the raw body, shown on a 200 response whose body fails envelope decoding. -/
theorem claim9_error_context :
    (∃ req,
        newRequest (NewTradingClient "tok") "GET" (TradingApiURL ++ "/orders") none = .ok req ∧
          req.rawPath = "" ∧
          doRequest req ⟨502, "oops"⟩ =
            (none, some (.errorf "bad response to  code=502, body=oops")) ∧
          ¬(TradingApiURL ++ "/orders").data <:+:
              "bad response to  code=502, body=oops".data) ∧
      (SearchInstrumentByFIGI (NewTradingClient "tok") "F" ⟨200, "\x7bbad"⟩ =
          (zeroInstrument,
            some (.errorf
              (unmarshalErrMsg (searchByFIGIPath (NewTradingClient "tok") "F") "\x7bbad"))) ∧
        (searchByFIGIPath (NewTradingClient "tok") "F").data <:+:
            (unmarshalErrMsg (searchByFIGIPath (NewTradingClient "tok") "F") "\x7bbad").data ∧
        "\x7bbad".data <:+:
            (unmarshalErrMsg (searchByFIGIPath (NewTradingClient "tok") "F") "\x7bbad").data) := by
  refine ⟨⟨{ method := "GET"
             url := TradingApiURL ++ "/orders"
             rawPath := urlRawPath (TradingApiURL ++ "/orders")
             headers := headerSet (headerSet [] "Content-Type" "application/json")
               "Authorization" ("Bearer " ++ "tok")
             body := none }, by rfl, by rfl, by rfl, by decide⟩, by rfl, by decide, by decide⟩

/-- Counterexample to claim C10 as stated: the body `5` is valid JSON and
has no `payload` field, yet every endpoint decoder returns an error (Go:
"cannot unmarshal number into Go value of type ..."), not the zero
payload — the claim holds only for object (or null) bodies. -/
theorem claim10_counterexample :
    parseJsonStr "5" = some (Json.num ⟨5, 0⟩) ∧
      unmarshalFIGIResponse "5" = none ∧
      unmarshalInstrumentsResponse "5" = none ∧
      unmarshalOrdersResponse "5" = none ∧
      SearchInstrumentByFIGI (NewTradingClient "tok") "F" ⟨200, "5"⟩ =
        (zeroInstrument,
          some (.errorf (unmarshalErrMsg (searchByFIGIPath (NewTradingClient "tok") "F") "5"))) := by
  exact ⟨by rfl, by rfl, by rfl, by rfl, by rfl⟩

/-- Claim C10 as amended: for every 200 body that is valid JSON whose top
level is an object without a `payload` member, each endpoint decoder
returns the zero value of its payload type with no error. -/
theorem claim10_amended (body : String) (fs : List (String × Json))
    (hp : parseJsonStr body = some (.obj fs))
    (hnp : ∀ kv ∈ fs, kv.1 ≠ "payload") :
    unmarshalFIGIResponse body = some zeroInstrument ∧
      unmarshalInstrumentsResponse body = some [] ∧
      unmarshalOrdersResponse body = some [] := by
  refine ⟨?_, ?_, ?_⟩
  · unfold unmarshalFIGIResponse
    rw [hp]
    exact foldlM_option_const _ fs zeroInstrument fun kv hkv => by simp [hnp kv hkv]
  · unfold unmarshalInstrumentsResponse
    rw [hp]
    exact foldlM_option_const _ fs [] fun kv hkv => by simp [hnp kv hkv]
  · unfold unmarshalOrdersResponse
    rw [hp]
    exact foldlM_option_const _ fs [] fun kv hkv => by simp [hnp kv hkv]

/-- Witness for the amended C10: the body `\x7b"x":1\x7d`. -/
theorem claim10_amended_witness :
    unmarshalFIGIResponse "\x7b\"x\":1\x7d" = some zeroInstrument ∧
      unmarshalInstrumentsResponse "\x7b\"x\":1\x7d" = some [] ∧
      unmarshalOrdersResponse "\x7b\"x\":1\x7d" = some [] :=
  claim10_amended "\x7b\"x\":1\x7d" [("x", Json.num ⟨1, 0⟩)] (by rfl)
    (by intro kv hkv; simp at hkv; simp [hkv])

mutual

/-- Values free of numeric leaves.  Every envelope the claims round-trip is
built from strings, arrays and objects, and excluding numbers keeps the
renderer's decimal output out of the grammar argument. -/
def goodV : Json → Bool
  | .null => true
  | .bool _ => true
  | .num _ => false
  | .str _ => true
  | .arr xs => goodE xs
  | .obj fs => goodM fs

/-- All elements good. -/
def goodE : List Json → Bool
  | [] => true
  | j :: js => goodV j && goodE js

/-- All member values good. -/
def goodM : List (String × Json) → Bool
  | [] => true
  | (_, v) :: fs => goodV v && goodM fs

end

mutual

/-- Number of grammar steps the parser takes on a rendered value (used as
a fuel lower bound). -/
def weightV : Json → Nat
  | .arr xs => 1 + weightL xs
  | .obj fs => 1 + weightM fs
  | .null => 1
  | .bool _b => 1
  | .num _x => 1
  | .str _s => 1

/-- Grammar steps for an element list. -/
def weightL : List Json → Nat
  | [] => 1
  | j :: js => 1 + weightV j + weightL js

/-- Grammar steps for a member list. -/
def weightM : List (String × Json) → Nat
  | [] => 1
  | (_, v) :: fs => 1 + weightV v + weightM fs

end

/-- Every value weighs at least one step. -/
theorem one_le_weightV (j : Json) : 1 ≤ weightV j := by
  cases j <;> simp [weightV]

/-- Every element list weighs at least one step. -/
theorem one_le_weightL (xs : List Json) : 1 ≤ weightL xs := by
  cases xs with
  | nil => simp [weightL]
  | cons j js => simp [weightL]; omega

/-- Every member list weighs at least one step. -/
theorem one_le_weightM (fs : List (String × Json)) : 1 ≤ weightM fs := by
  cases fs with
  | nil => simp [weightM]
  | cons kv fs => obtain ⟨k, v⟩ := kv; simp [weightM]; omega

/-- `String.mk` undoes `String.data`. -/
theorem strMk_data (s : String) : String.mk s.data = s := by
  cases s; rfl

/-- `hexVal` inverts `hexDigChar` on hex digit values. -/
theorem hexVal_hexDigChar (n : Nat) (h : n < 16) : hexVal (hexDigChar n) = some n := by
  interval_cases n <;> rfl


/-- The string-body parser inverts the Go string encoder: reading the
escaped characters and the closing quote recovers the characters and
leaves the rest of the input intact. -/
theorem parseStringBody_escChars (cs rest : List Char) :
    parseStringBody (escChars cs ++ '"' :: rest) = some (cs, rest) := by
  induction cs with
  | nil =>
    simp only [escChars, List.nil_append]
    rw [parseStringBody.eq_def]
    simp
  | cons c cs ih =>
    show parseStringBody ((escChar c ++ escChars cs) ++ '"' :: rest) = some (c :: cs, rest)
    rw [List.append_assoc]
    by_cases h1 : c = '"'
    · subst h1
      rw [show escChar '"' = ['\\', '"'] from rfl]
      rw [parseStringBody.eq_def]
      simp [ih]
    · by_cases h2 : c = '\\'
      · subst h2
        rw [show escChar '\\' = ['\\', '\\'] from rfl]
        rw [parseStringBody.eq_def]
        simp [ih]
      · by_cases h3 : c = '\n'
        · subst h3
          rw [show escChar '\n' = ['\\', 'n'] from rfl]
          rw [parseStringBody.eq_def]
          simp [ih]
        · by_cases h4 : c = '\r'
          · subst h4
            rw [show escChar '\x0d' = ['\\', 'r'] from rfl]
            rw [parseStringBody.eq_def]
            simp [ih]
          · by_cases h5 : c = '\t'
            · subst h5
              rw [show escChar '\t' = ['\\', 't'] from rfl]
              rw [parseStringBody.eq_def]
              simp [ih]
            · by_cases h6 : c = '<' ∨ c = '>' ∨ c = '&' ∨ c.toNat < 0x20 ∨ c.toNat = 0x2028 ∨ c.toNat = 0x2029
              · have hesc : escChar c = uescDigits c.toNat := by
                  simp only [escChar, if_neg h1, if_neg h2, if_neg h3, if_neg h4, if_neg h5,
                    if_pos h6]
                have hlt : c.toNat < 0xD800 := by
                  rcases h6 with h | h | h | h | h | h
                  · subst h; decide
                  · subst h; decide
                  · subst h; decide
                  all_goals omega
                have e3 : hexVal (hexDigChar (c.toNat / 4096 % 16)) = some (c.toNat / 4096 % 16) :=
                  hexVal_hexDigChar _ (by omega)
                have e2 : hexVal (hexDigChar (c.toNat / 256 % 16)) = some (c.toNat / 256 % 16) :=
                  hexVal_hexDigChar _ (by omega)
                have e1 : hexVal (hexDigChar (c.toNat / 16 % 16)) = some (c.toNat / 16 % 16) :=
                  hexVal_hexDigChar _ (by omega)
                have e0 : hexVal (hexDigChar (c.toNat % 16)) = some (c.toNat % 16) :=
                  hexVal_hexDigChar _ (by omega)
                have harith :
                    c.toNat / 4096 % 16 * 4096 + c.toNat / 256 % 16 * 256 +
                      c.toNat / 16 % 16 * 16 + c.toNat % 16 = c.toNat := by omega
                have hns : ¬(0xD800 ≤ c.toNat ∧ c.toNat < 0xE000) := by omega
                rw [hesc]
                simp only [uescDigits, List.cons_append]
                rw [parseStringBody.eq_def]
                simp [e3, e2, e1, e0, harith, uescChar, hns, Char.ofNat_toNat, ih]
              · have h7 : ¬c.toNat < 0x20 := by push_neg at h6; omega
                have hesc : escChar c = [c] := by
                  simp only [escChar, if_neg h1, if_neg h2, if_neg h3, if_neg h4, if_neg h5,
                    if_neg h6]
                rw [hesc]
                simp only [List.cons_append, List.nil_append]
                rw [parseStringBody.eq_def]
                simp [h1, h2, h7, ih]

/-- `skipWs` leaves a list alone when its head is not whitespace. -/
theorem skipWs_cons (c : Char) (l : List Char) (h : isJsonWs c = false) :
    skipWs (c :: l) = c :: l := by
  rw [skipWs.eq_def]
  simp [h]

/-- A rendered good value starts with a non-whitespace character that is
not a closing bracket, comma or closing brace. -/
theorem renderV_cons (j : Json) (h : goodV j = true) :
    ∃ c t, renderV j = c :: t ∧ isJsonWs c = false ∧ c ≠ ']' ∧ c ≠ ',' ∧ c ≠ '\x7d' := by
  cases j with
  | null =>
    exact ⟨'n', "ull".data, by simp only [renderV], by decide, by decide, by decide,
      by decide⟩
  | bool b =>
    cases b with
    | false =>
      exact ⟨'f', "alse".data, by simp only [renderV], by decide, by decide, by decide,
        by decide⟩
    | true =>
      exact ⟨'t', "rue".data, by simp only [renderV], by decide, by decide, by decide,
        by decide⟩
  | num n => simp [goodV] at h
  | str s => exact ⟨'"', escChars s.data ++ ['"'], by simp [renderV], by decide, by decide, by decide, by decide⟩
  | arr xs => exact ⟨'[', renderElems xs ++ [']'], by simp [renderV], by decide, by decide, by decide, by decide⟩
  | obj fs => exact ⟨'\x7b', renderMembers fs ++ ['\x7d'], by simp [renderV], by decide, by decide, by decide, by decide⟩

/-- The value parser on a quoted string: defers to `parseStringBody`. -/
theorem parseF_val_string (f : Nat) (X cs r' : List Char)
    (hp : parseStringBody X = some (cs, r')) :
    parseF (f + 1) .val ('"' :: X) = some (.str (String.mk cs), r') := by
  have h0 : parseF (f + 1) .val ('"' :: X) =
      (match parseStringBody X with
       | some (cs, r') => some (Json.str (String.mk cs), r')
       | none => none) := rfl
  rw [h0, hp]

/-- The parser inverts the renderer, given enough fuel: in every mode, a
rendered good value (or element/member tail) followed by its closing
delimiter parses back to itself, leaving the rest of the input. -/
theorem parseF_render (f : Nat) :
    (∀ j rest, goodV j = true → weightV j < f →
        parseF f .val (renderV j ++ rest) = some (j, rest)) ∧
      (∀ xs rest, goodE xs = true → weightL xs < f →
        parseF f .elems (renderElems xs ++ ']' :: rest) = some (.arr xs, rest)) ∧
      (∀ acc js rest, goodE js = true → weightL js < f →
        parseF f (.elemsRest acc) (renderTailE js ++ ']' :: rest) =
          some (.arr (acc.reverse ++ js), rest)) ∧
      (∀ fs rest, goodM fs = true → weightM fs < f →
        parseF f .members (renderMembers fs ++ '\x7d' :: rest) = some (.obj fs, rest)) ∧
      (∀ acc fs rest, goodM fs = true → weightM fs < f →
        parseF f (.membersRest acc) (renderTailM fs ++ '\x7d' :: rest) =
          some (.obj (acc.reverse ++ fs), rest)) := by
  induction f with
  | zero =>
    refine ⟨fun j rest hg hw => absurd hw (by omega),
      fun xs rest hg hw => absurd hw (by omega),
      fun acc js rest hg hw => absurd hw (by omega),
      fun fs rest hg hw => absurd hw (by omega),
      fun acc fs rest hg hw => absurd hw (by omega)⟩
  | succ f ih =>
    obtain ⟨ihV, ihE, ihR, ihM, ihS⟩ := ih
    refine ⟨?_, ?_, ?_, ?_, ?_⟩
    · -- values
      intro j rest hg hw
      cases j with
      | null =>
        rw [show renderV .null = "null".data from by simp only [renderV]]
        rfl
      | bool b =>
        cases b with
        | false =>
          rw [show renderV (.bool false) = "false".data from by simp only [renderV]]
          rfl
        | true =>
          rw [show renderV (.bool true) = "true".data from by simp only [renderV]]
          rfl
      | num n => simp [goodV] at hg
      | str s =>
        rw [show renderV (.str s) = '"' :: (escChars s.data ++ ['"']) from by simp [renderV]]
        rw [show ('"' :: (escChars s.data ++ ['"'])) ++ rest =
          '"' :: (escChars s.data ++ '"' :: rest) from by simp]
        rw [parseF_val_string f _ _ _ (parseStringBody_escChars s.data rest)]
      | arr xs =>
        have hg' : goodE xs = true := by simpa [goodV] using hg
        have hw' : weightL xs < f := by simp [weightV] at hw; omega
        rw [show renderV (.arr xs) = '[' :: (renderElems xs ++ [']']) from by simp [renderV]]
        rw [show ('[' :: (renderElems xs ++ [']'])) ++ rest =
          '[' :: (renderElems xs ++ ']' :: rest) from by simp]
        show parseF f .elems (renderElems xs ++ ']' :: rest) = some (.arr xs, rest)
        exact ihE xs rest hg' hw'
      | obj fs =>
        have hg' : goodM fs = true := by simpa [goodV] using hg
        have hw' : weightM fs < f := by simp [weightV] at hw; omega
        rw [show renderV (.obj fs) = '\x7b' :: (renderMembers fs ++ ['\x7d']) from by
          simp [renderV]]
        rw [show ('\x7b' :: (renderMembers fs ++ ['\x7d'])) ++ rest =
          '\x7b' :: (renderMembers fs ++ '\x7d' :: rest) from by simp]
        show parseF f .members (renderMembers fs ++ '\x7d' :: rest) = some (.obj fs, rest)
        exact ihM fs rest hg' hw'
    · -- array bodies after the opening bracket
      intro xs rest hg hw
      cases xs with
      | nil =>
        rw [show renderElems [] = ([] : List Char) from by simp [renderElems]]
        rfl
      | cons j js =>
        have hgj : goodV j = true := by simp [goodE] at hg; exact hg.1
        have hgjs : goodE js = true := by simp [goodE] at hg; exact hg.2
        have hwj : weightV j < f := by
          have h1 := one_le_weightL js
          simp [weightL] at hw; omega
        have hwjs : weightL js < f := by
          have h1 := one_le_weightV j
          simp [weightL] at hw; omega
        obtain ⟨c, t, hre, hws, hb1, hb2, hb3⟩ := renderV_cons j hgj
        rw [show renderElems (j :: js) = renderV j ++ renderTailE js from by simp [renderElems]]
        rw [List.append_assoc, hre, List.cons_append]
        rw [parseF.eq_def]
        simp only [skipWs_cons c _ hws, headIs]
        rw [if_neg (show ¬decide (c = ']') = true from by simp [hb1])]
        rw [show c :: (t ++ (renderTailE js ++ ']' :: rest)) =
          renderV j ++ (renderTailE js ++ ']' :: rest) from by rw [hre]; simp]
        rw [ihV j _ hgj hwj]
        simpa using ihR [j] js rest hgjs hwjs
    · -- array tails after at least one element
      intro acc js rest hg hw
      cases js with
      | nil =>
        rw [show renderTailE [] = ([] : List Char) from by simp [renderTailE]]
        simp only [List.nil_append, List.append_nil]
        rfl
      | cons j js =>
        have hgj : goodV j = true := by simp [goodE] at hg; exact hg.1
        have hgjs : goodE js = true := by simp [goodE] at hg; exact hg.2
        have hwj : weightV j < f := by
          have h1 := one_le_weightL js
          simp [weightL] at hw; omega
        have hwjs : weightL js < f := by
          have h1 := one_le_weightV j
          simp [weightL] at hw; omega
        rw [show renderTailE (j :: js) = ',' :: (renderV j ++ renderTailE js) from by
          simp [renderTailE]]
        rw [List.cons_append, List.append_assoc]
        rw [parseF.eq_def]
        simp only [skipWs_cons ',' _ (by decide), headIs]
        rw [if_neg (by decide), if_pos (by decide)]
        simp only [List.tail_cons]
        rw [ihV j _ hgj hwj]
        have := ihR (j :: acc) js rest hgjs hwjs
        simp only [List.reverse_cons, List.append_assoc, List.singleton_append] at this
        simpa using this
    · -- object bodies after the opening brace
      intro fs rest hg hw
      cases fs with
      | nil =>
        rw [show renderMembers [] = ([] : List Char) from by simp [renderMembers]]
        rfl
      | cons kv fs =>
        obtain ⟨k, v⟩ := kv
        have hgv : goodV v = true := by simp [goodM] at hg; exact hg.1
        have hgfs : goodM fs = true := by simp [goodM] at hg; exact hg.2
        have hwv : weightV v < f := by
          have h1 := one_le_weightM fs
          simp [weightM] at hw; omega
        have hwfs : weightM fs < f := by
          have h1 := one_le_weightV v
          simp [weightM] at hw; omega
        rw [show renderMembers ((k, v) :: fs) = renderKV k v ++ renderTailM fs from by
          simp [renderMembers]]
        rw [show renderKV k v = '"' :: (escChars k.data ++ '"' :: ':' :: renderV v) from by
          simp [renderKV]]
        rw [parseF.eq_def]
        simp only [List.cons_append, List.append_assoc]
        simp only [skipWs_cons '"' _ (by decide), headIs]
        rw [if_neg (by decide), if_pos (by decide)]
        simp only [List.tail_cons, parseMember]
        rw [parseStringBody_escChars k.data]
        simp only [skipWs_cons ':' _ (by decide)]
        rw [ihV v _ hgv hwv]
        rw [strMk_data]
        have := ihS [(k, v)] fs rest hgfs hwfs
        simpa using this
    · -- object tails after at least one member
      intro acc fs rest hg hw
      cases fs with
      | nil =>
        rw [show renderTailM [] = ([] : List Char) from by simp [renderTailM]]
        simp only [List.nil_append, List.append_nil]
        rfl
      | cons kv fs =>
        obtain ⟨k, v⟩ := kv
        have hgv : goodV v = true := by simp [goodM] at hg; exact hg.1
        have hgfs : goodM fs = true := by simp [goodM] at hg; exact hg.2
        have hwv : weightV v < f := by
          have h1 := one_le_weightM fs
          simp [weightM] at hw; omega
        have hwfs : weightM fs < f := by
          have h1 := one_le_weightV v
          simp [weightM] at hw; omega
        rw [show renderTailM ((k, v) :: fs) = ',' :: (renderKV k v ++ renderTailM fs) from by
          simp [renderTailM]]
        rw [show renderKV k v = '"' :: (escChars k.data ++ '"' :: ':' :: renderV v) from by
          simp [renderKV]]
        rw [parseF.eq_def]
        simp only [List.cons_append, List.append_assoc]
        simp only [skipWs_cons ',' _ (by decide), headIs]
        rw [if_neg (by decide), if_pos (by decide)]
        simp only [List.tail_cons]
        simp only [skipWs_cons '"' _ (by decide)]
        rw [if_pos (by decide)]
        simp only [List.tail_cons, parseMember]
        rw [parseStringBody_escChars k.data]
        simp only [skipWs_cons ':' _ (by decide)]
        rw [ihV v _ hgv hwv]
        rw [strMk_data]
        have := ihS ((k, v) :: acc) fs rest hgfs hwfs
        simp only [List.reverse_cons, List.append_assoc, List.singleton_append] at this
        simpa using this

/-- The parser's step count of a good value is dominated by twice its
rendered length (so the fuel `parseJsonStr` supplies is always enough). -/
theorem weight_le_render (n : Nat) :
    (∀ j, weightV j ≤ n → goodV j = true → weightV j ≤ 2 * (renderV j).length) ∧
      (∀ js, weightL js ≤ n → goodE js = true → weightL js ≤ 2 * (renderTailE js).length + 1) ∧
      (∀ fs, weightM fs ≤ n → goodM fs = true → weightM fs ≤ 2 * (renderTailM fs).length + 1) := by
  induction n with
  | zero =>
    refine ⟨fun j h _ => absurd h (by have := one_le_weightV j; omega),
      fun js h _ => absurd h (by have := one_le_weightL js; omega),
      fun fs h _ => absurd h (by have := one_le_weightM fs; omega)⟩
  | succ n ih =>
    obtain ⟨ihV, ihL, ihM⟩ := ih
    refine ⟨?_, ?_, ?_⟩
    · intro j hn hg
      cases j with
      | null => simp only [weightV, renderV]; decide
      | bool b => cases b <;> (simp only [weightV, renderV]; decide)
      | num x => simp [goodV] at hg
      | str s => simp [weightV, renderV]; omega
      | arr xs =>
        have hg' : goodE xs = true := by simpa [goodV] using hg
        cases xs with
        | nil => simp [weightV, weightL, renderV, renderElems]
        | cons j js =>
          have hgj : goodV j = true := by simp [goodE] at hg'; exact hg'.1
          have hgjs : goodE js = true := by simp [goodE] at hg'; exact hg'.2
          have h1 := one_le_weightV j
          have h2 := one_le_weightL js
          have hwn : weightV (.arr (j :: js)) ≤ n + 1 := hn
          have hb1 : weightV j ≤ 2 * (renderV j).length := by
            apply ihV j ?_ hgj
            simp [weightV, weightL] at hwn; omega
          have hb2 : weightL js ≤ 2 * (renderTailE js).length + 1 := by
            apply ihL js ?_ hgjs
            simp [weightV, weightL] at hwn; omega
          simp only [weightV, weightL, renderV, renderElems, List.length_cons,
            List.length_append] at *
          omega
      | obj fs =>
        have hg' : goodM fs = true := by simpa [goodV] using hg
        cases fs with
        | nil => simp [weightV, weightM, renderV, renderMembers]
        | cons kv fs =>
          obtain ⟨k, v⟩ := kv
          have hgv : goodV v = true := by simp [goodM] at hg'; exact hg'.1
          have hgfs : goodM fs = true := by simp [goodM] at hg'; exact hg'.2
          have h1 := one_le_weightV v
          have h2 := one_le_weightM fs
          have hwn : weightV (.obj ((k, v) :: fs)) ≤ n + 1 := hn
          have hb1 : weightV v ≤ 2 * (renderV v).length := by
            apply ihV v ?_ hgv
            simp [weightV, weightM] at hwn; omega
          have hb2 : weightM fs ≤ 2 * (renderTailM fs).length + 1 := by
            apply ihM fs ?_ hgfs
            simp [weightV, weightM] at hwn; omega
          simp only [weightV, weightM, renderV, renderMembers, renderKV, List.length_cons,
            List.length_append] at *
          omega
    · intro js hn hg
      cases js with
      | nil => simp [weightL, renderTailE]
      | cons j js =>
        have hgj : goodV j = true := by simp [goodE] at hg; exact hg.1
        have hgjs : goodE js = true := by simp [goodE] at hg; exact hg.2
        have h1 := one_le_weightV j
        have h2 := one_le_weightL js
        have hb1 : weightV j ≤ 2 * (renderV j).length := by
          apply ihV j ?_ hgj
          simp [weightL] at hn; omega
        have hb2 : weightL js ≤ 2 * (renderTailE js).length + 1 := by
          apply ihL js ?_ hgjs
          simp [weightL] at hn; omega
        simp only [weightL, renderTailE, List.length_cons, List.length_append] at *
        omega
    · intro fs hn hg
      cases fs with
      | nil => simp [weightM, renderTailM]
      | cons kv fs =>
        obtain ⟨k, v⟩ := kv
        have hgv : goodV v = true := by simp [goodM] at hg; exact hg.1
        have hgfs : goodM fs = true := by simp [goodM] at hg; exact hg.2
        have h1 := one_le_weightV v
        have h2 := one_le_weightM fs
        have hb1 : weightV v ≤ 2 * (renderV v).length := by
          apply ihV v ?_ hgv
          simp [weightM] at hn; omega
        have hb2 : weightM fs ≤ 2 * (renderTailM fs).length + 1 := by
          apply ihM fs ?_ hgfs
          simp [weightM] at hn; omega
        simp only [weightM, renderTailM, renderKV, List.length_cons, List.length_append] at *
        omega

/-- Whole-input round trip: parsing the rendering of a good value yields
exactly that value. -/
theorem parseJsonStr_render (j : Json) (hg : goodV j = true) :
    parseJsonStr (Json.render j) = some j := by
  have hw : weightV j < 2 * ((renderV j).length + 1) := by
    have := (weight_le_render (weightV j)).1 j le_rfl hg
    omega
  have h := (parseF_render (2 * ((renderV j).length + 1))).1 j [] hg hw
  rw [List.append_nil] at h
  show (match parseF (2 * ((renderV j).length + 1)) .val (renderV j) with
    | some (v, rest) => if skipWs rest = [] then some v else none
    | none => none) = some j
  rw [h]
  rfl

/-- The documented success envelope of `SearchInstrumentByFIGI`:
`\x7b"payload": <instrument>\x7d`. -/
def figiEnvelope (v : Instrument) : Json :=
  .obj [("payload", encodeInstrument v)]

/-- The documented success envelope of the list endpoints:
`\x7b"payload":\x7b"instruments":[...]\x7d\x7d`. -/
def instrumentsEnvelope (vs : List Instrument) : Json :=
  .obj [("payload", .obj [("instruments", .arr (vs.map encodeInstrument))])]

/-- Encoded instruments contain no numeric leaves. -/
theorem goodV_encodeInstrument (v : Instrument) : goodV (encodeInstrument v) = true := by
  rw [show encodeInstrument v = .obj [("figi", .str v.figi), ("ticker", .str v.ticker)] from rfl]
  simp [goodV, goodM]

/-- Lists of encoded instruments contain no numeric leaves. -/
theorem goodE_map_encode (vs : List Instrument) :
    goodE (vs.map encodeInstrument) = true := by
  induction vs with
  | nil => simp [goodE]
  | cons v vs ih =>
    have h1 : goodE (encodeInstrument v :: vs.map encodeInstrument) =
        (goodV (encodeInstrument v) && goodE (vs.map encodeInstrument)) := by
      simp [goodE]
    simp [h1, goodV_encodeInstrument, ih]

/-- The by-figi envelope is a good value. -/
theorem goodV_figiEnvelope (v : Instrument) : goodV (figiEnvelope v) = true := by
  rw [show figiEnvelope v = .obj [("payload", encodeInstrument v)] from rfl]
  have h1 : goodV (Json.obj [("payload", encodeInstrument v)]) =
      goodM [("payload", encodeInstrument v)] := by simp [goodV]
  have h2 : goodM [("payload", encodeInstrument v)] =
      (goodV (encodeInstrument v) && goodM []) := by simp [goodM]
  rw [h1, h2, goodV_encodeInstrument]
  simp [goodM]

/-- The list envelope is a good value. -/
theorem goodV_instrumentsEnvelope (vs : List Instrument) :
    goodV (instrumentsEnvelope vs) = true := by
  rw [show instrumentsEnvelope vs =
    .obj [("payload", .obj [("instruments", .arr (vs.map encodeInstrument))])] from rfl]
  have h1 : goodV (Json.arr (vs.map encodeInstrument)) = goodE (vs.map encodeInstrument) := by
    simp [goodV]
  simp [goodV, goodM, h1, goodE_map_encode]

/-- Decoding an encoded instrument into the zero instrument recovers it. -/
theorem decodeInstrumentInto_encode (v : Instrument) :
    decodeInstrumentInto zeroInstrument (encodeInstrument v) = some v := by
  obtain ⟨fg, tk⟩ := v
  simp [decodeInstrumentInto, encodeInstrument, List.foldlM, decodeStrField, zeroInstrument]

/-- Decoding an encoded instrument array recovers the list. -/
theorem decodeInstrumentArr_map (vs : List Instrument) :
    decodeInstrumentArr [] (vs.map encodeInstrument) = some vs := by
  induction vs with
  | nil => rfl
  | cons v vs ih => simp [decodeInstrumentArr, decodeInstrumentInto_encode, ih]

/-- Claim C6: encoding a payload, wrapping it in the documented envelope
(the plain `payload` form for the by-figi endpoint, the nested
`payload.instruments` array form for the list endpoints), serializing, and
running the endpoint's envelope decoder recovers exactly the original
payload. -/
theorem claim6_envelope_roundTrip :
    (∀ v : Instrument, unmarshalFIGIResponse (Json.render (figiEnvelope v)) = some v) ∧
      (∀ vs : List Instrument,
        unmarshalInstrumentsResponse (Json.render (instrumentsEnvelope vs)) = some vs) := by
  constructor
  · intro v
    unfold unmarshalFIGIResponse
    rw [parseJsonStr_render _ (goodV_figiEnvelope v)]
    simp [figiEnvelope, decodeFIGIResp, List.foldlM, decodeInstrumentInto_encode]
  · intro vs
    unfold unmarshalInstrumentsResponse
    rw [parseJsonStr_render _ (goodV_instrumentsEnvelope vs)]
    simp [instrumentsEnvelope, decodeInstrumentsResp, decodeInstrumentsPayloadInto,
      decodeInstrumentListInto, List.foldlM, decodeInstrumentArr_map]
